import Mathlib

/-!
Verification of the Storytime bedtime-story generator.

The development shallowly embeds the string-processing and persistence
core of `app.py` and `llm_providers.py`.  Python strings are modelled as
`String` (lists of code points via `String.data`), the file system as a
finite map from path strings to file contents, the wall clock and the
network as explicit oracle parameters.  `str.split`, `str.count`,
`str.strip`, `str.replace` and `str.join` are re-implemented over
`List Char` with the exact greedy, non-overlapping semantics CPython uses.
-/

namespace Storytime

/-- Characters removed by Python `str.strip()` with no argument
(ASCII whitespace, as in `string.whitespace`). -/
def isPyWs (c : Char) : Bool :=
  c = ' ' || c = '\t' || c = '\n' || c = '\r' || c = '\x0b' || c = '\x0c'

/-- Drop trailing characters satisfying `p` (right half of a Python strip). -/
def dropTrailing (p : Char → Bool) (l : List Char) : List Char :=
  ((l.reverse).dropWhile p).reverse

/-- Python `str.strip()` on a list of code points. -/
def pyStrip (l : List Char) : List Char :=
  dropTrailing isPyWs (l.dropWhile isPyWs)

/-- Python `s.strip()` on strings. -/
def pyStripS (s : String) : String :=
  ⟨pyStrip s.data⟩

/-- Greedy splitting scan with explicit fuel (structural recursion, so
concrete instances reduce in the kernel).  With fuel at least the text
length it is the CPython scan. -/
def splitOnAux (sep : List Char) : Nat → List Char → List (List Char)
  | _, [] => [[]]
  | 0, l => [l]
  | fuel + 1, c :: cs =>
    if sep ≠ [] ∧ sep.isPrefixOf (c :: cs) then
      [] :: splitOnAux sep fuel ((c :: cs).drop sep.length)
    else
      match splitOnAux sep fuel cs with
      | [] => [[c]]
      | l :: ls => (c :: l) :: ls

/-- Python `s.split(sep)` for a separator `sep`: greedy left-to-right scan,
splitting at each non-overlapping occurrence, keeping empty pieces.
CPython raises on an empty separator; the guard makes the empty-separator
case total (never split) but the code only ever calls it with nonempty
separators. -/
def splitOnL (sep l : List Char) : List (List Char) :=
  splitOnAux sep l.length l

/-- Greedy occurrence-counting scan with explicit fuel. -/
def countOccsAux (pat : List Char) : Nat → List Char → Nat
  | _, [] => 0
  | 0, _ => 0
  | fuel + 1, c :: cs =>
    if pat ≠ [] ∧ pat.isPrefixOf (c :: cs) then
      countOccsAux pat fuel ((c :: cs).drop pat.length) + 1
    else
      countOccsAux pat fuel cs

/-- Python `s.count(sub)` for nonempty `sub`: number of non-overlapping
occurrences found by a greedy left-to-right scan. -/
def countOccsL (pat l : List Char) : Nat :=
  countOccsAux pat l.length l

theorem splitOnAux_stable (sep : List Char) :
    ∀ n m (l : List Char), l.length ≤ n → l.length ≤ m →
      splitOnAux sep n l = splitOnAux sep m l := by
  intro n
  induction n with
  | zero =>
    intro m l hn _
    obtain rfl : l = [] := List.eq_nil_of_length_eq_zero (Nat.le_zero.mp hn)
    cases m <;> rfl
  | succ n ih =>
    intro m l hn hm
    cases l with
    | nil => cases m <;> rfl
    | cons c cs =>
      cases m with
      | zero => simp at hm
      | succ m =>
        show (if sep ≠ [] ∧ sep.isPrefixOf (c :: cs) then
            [] :: splitOnAux sep n ((c :: cs).drop sep.length)
          else
            match splitOnAux sep n cs with
            | [] => [[c]]
            | l :: ls => (c :: l) :: ls) =
          (if sep ≠ [] ∧ sep.isPrefixOf (c :: cs) then
            [] :: splitOnAux sep m ((c :: cs).drop sep.length)
          else
            match splitOnAux sep m cs with
            | [] => [[c]]
            | l :: ls => (c :: l) :: ls)
        by_cases h : sep ≠ [] ∧ sep.isPrefixOf (c :: cs)
        · rw [if_pos h, if_pos h]
          have hlen : ((c :: cs).drop sep.length).length ≤ n ∧
              ((c :: cs).drop sep.length).length ≤ m := by
            have : 0 < sep.length := List.length_pos.mpr h.1
            simp only [List.length_drop, List.length_cons]
            simp only [List.length_cons] at hn hm
            omega
          rw [ih _ _ hlen.1 hlen.2]
        · rw [if_neg h, if_neg h]
          have hlen : cs.length ≤ n ∧ cs.length ≤ m := by
            simp only [List.length_cons] at hn hm
            omega
          rw [ih _ _ hlen.1 hlen.2]

theorem countOccsAux_stable (pat : List Char) :
    ∀ n m (l : List Char), l.length ≤ n → l.length ≤ m →
      countOccsAux pat n l = countOccsAux pat m l := by
  intro n
  induction n with
  | zero =>
    intro m l hn _
    obtain rfl : l = [] := List.eq_nil_of_length_eq_zero (Nat.le_zero.mp hn)
    cases m <;> rfl
  | succ n ih =>
    intro m l hn hm
    cases l with
    | nil => cases m <;> rfl
    | cons c cs =>
      cases m with
      | zero => simp at hm
      | succ m =>
        show (if pat ≠ [] ∧ pat.isPrefixOf (c :: cs) then
            countOccsAux pat n ((c :: cs).drop pat.length) + 1
          else countOccsAux pat n cs) =
          (if pat ≠ [] ∧ pat.isPrefixOf (c :: cs) then
            countOccsAux pat m ((c :: cs).drop pat.length) + 1
          else countOccsAux pat m cs)
        by_cases h : pat ≠ [] ∧ pat.isPrefixOf (c :: cs)
        · rw [if_pos h, if_pos h]
          have hlen : ((c :: cs).drop pat.length).length ≤ n ∧
              ((c :: cs).drop pat.length).length ≤ m := by
            have : 0 < pat.length := List.length_pos.mpr h.1
            simp only [List.length_drop, List.length_cons]
            simp only [List.length_cons] at hn hm
            omega
          rw [ih _ _ hlen.1 hlen.2]
        · rw [if_neg h, if_neg h]
          have hlen : cs.length ≤ n ∧ cs.length ≤ m := by
            simp only [List.length_cons] at hn hm
            omega
          rw [ih _ _ hlen.1 hlen.2]

/-- One unfolding step of the splitting scan. -/
theorem splitOnL_cons (sep : List Char) (c : Char) (cs : List Char) :
    splitOnL sep (c :: cs) =
      if sep ≠ [] ∧ sep.isPrefixOf (c :: cs) then
        [] :: splitOnL sep ((c :: cs).drop sep.length)
      else
        match splitOnL sep cs with
        | [] => [[c]]
        | l :: ls => (c :: l) :: ls := by
  show (if sep ≠ [] ∧ sep.isPrefixOf (c :: cs) then
      [] :: splitOnAux sep cs.length ((c :: cs).drop sep.length)
    else
      match splitOnAux sep cs.length cs with
      | [] => [[c]]
      | l :: ls => (c :: l) :: ls) = _
  by_cases h : sep ≠ [] ∧ sep.isPrefixOf (c :: cs)
  · rw [if_pos h, if_pos h]
    unfold splitOnL
    rw [splitOnAux_stable sep cs.length ((c :: cs).drop sep.length).length _
      (by
        have : 0 < sep.length := List.length_pos.mpr h.1
        simp only [List.length_drop, List.length_cons]
        omega)
      le_rfl]
  · rw [if_neg h, if_neg h]
    rfl

/-- One unfolding step of the counting scan. -/
theorem countOccsL_cons (pat : List Char) (c : Char) (cs : List Char) :
    countOccsL pat (c :: cs) =
      if pat ≠ [] ∧ pat.isPrefixOf (c :: cs) then
        countOccsL pat ((c :: cs).drop pat.length) + 1
      else
        countOccsL pat cs := by
  show (if pat ≠ [] ∧ pat.isPrefixOf (c :: cs) then
      countOccsAux pat cs.length ((c :: cs).drop pat.length) + 1
    else countOccsAux pat cs.length cs) = _
  by_cases h : pat ≠ [] ∧ pat.isPrefixOf (c :: cs)
  · rw [if_pos h, if_pos h]
    unfold countOccsL
    rw [countOccsAux_stable pat cs.length ((c :: cs).drop pat.length).length _
      (by
        have : 0 < pat.length := List.length_pos.mpr h.1
        simp only [List.length_drop, List.length_cons]
        omega)
      le_rfl]
  · rw [if_neg h, if_neg h]
    rfl

/-- Python `sep.join(parts)` on lists of code points. -/
def joinSep (sep : List Char) : List (List Char) → List Char
  | [] => []
  | [l] => l
  | l :: l' :: ls => l ++ sep ++ joinSep sep (l' :: ls)

/-- Python `s.split(sep)` on strings. -/
def splitOnS (sep s : String) : List String :=
  (splitOnL sep.data s.data).map fun l => ⟨l⟩

/-- Python `s.count(sub)` on strings. -/
def countS (pat s : String) : Nat :=
  countOccsL pat.data s.data

/-- Python `sub in s` on strings. -/
def containsS (pat s : String) : Bool :=
  decide (pat.data <:+: s.data)

/-- Python `sep.join(parts)` on strings. -/
def joinSepS (sep : String) (parts : List String) : String :=
  ⟨joinSep sep.data (parts.map String.data)⟩

/-- Python `s.replace(pat, repl)` for nonempty `pat`, via the identity
`s.replace(a, b) == b.join(s.split(a))`. -/
def replaceS (pat repl s : String) : String :=
  ⟨joinSep repl.data (splitOnL pat.data s.data)⟩

/-- Python `s.strip(chars)`: remove the characters of `cs` from both ends. -/
def stripCharsS (cs : List Char) (s : String) : String :=
  ⟨dropTrailing (fun c => cs.contains c) (s.data.dropWhile fun c => cs.contains c)⟩

theorem splitOnL_nil_eq (sep : List Char) : splitOnL sep [] = [[]] := rfl

theorem splitOnL_ne_nil (sep l : List Char) : splitOnL sep l ≠ [] := by
  cases l with
  | nil => simp [splitOnL_nil_eq]
  | cons c cs =>
    rw [splitOnL_cons]
    split
    · simp
    · split <;> simp

theorem joinSep_cons_cons (sep : List Char) (c : Char) (m : List Char)
    (ms : List (List Char)) :
    joinSep sep ((c :: m) :: ms) = c :: joinSep sep (m :: ms) := by
  cases ms <;> simp [joinSep]

/-- Splitting undoes joining: `sep.join(s.split(sep)) == s`. -/
theorem joinSep_splitOnL (sep l : List Char) :
    joinSep sep (splitOnL sep l) = l := by
  suffices key : ∀ n (l : List Char), l.length ≤ n →
      joinSep sep (splitOnL sep l) = l from key l.length l le_rfl
  intro n
  induction n with
  | zero =>
    intro l hl
    obtain rfl : l = [] := List.eq_nil_of_length_eq_zero (Nat.le_zero.mp hl)
    simp [splitOnL_nil_eq, joinSep]
  | succ n ih =>
    intro l hl
    cases l with
    | nil => simp [splitOnL_nil_eq, joinSep]
    | cons c cs =>
      rw [splitOnL_cons]
      split
      · rename_i h
        obtain ⟨t, ht⟩ := List.isPrefixOf_iff_prefix.mp h.2
        have hdrop : (c :: cs).drop sep.length = t := by
          rw [← ht, List.drop_left]
        rw [hdrop]
        have hle : t.length ≤ n := by
          have h1 : 0 < sep.length := List.length_pos.mpr h.1
          have h2 := congrArg List.length ht
          simp only [List.length_append, List.length_cons] at h2 hl
          omega
        have hrec := ih t hle
        obtain ⟨m, ms, hm⟩ := List.exists_cons_of_ne_nil (splitOnL_ne_nil sep t)
        rw [hm] at hrec ⊢
        simp only [joinSep, List.nil_append]
        rw [hrec, ht]
      · have hle : cs.length ≤ n := by
          simp only [List.length_cons] at hl; omega
        have hrec := ih cs hle
        obtain ⟨m, ms, hm⟩ := List.exists_cons_of_ne_nil (splitOnL_ne_nil sep cs)
        rw [hm] at hrec ⊢
        rw [joinSep_cons_cons, hrec]

/-- Splitting on a single character distributes over an occurrence of it. -/
theorem splitOnL_single_append (c : Char) (a b : List Char) (h : c ∉ a) :
    splitOnL [c] (a ++ c :: b) = a :: splitOnL [c] b := by
  induction a with
  | nil =>
    rw [List.nil_append, splitOnL_cons]
    rw [if_pos ⟨by simp, by simp [List.isPrefixOf]⟩]
    simp
  | cons x a ih =>
    have hx : x ≠ c := fun hxc => h (by simp [hxc])
    have hmem : c ∉ a := fun hc => h (by simp [hc])
    rw [List.cons_append, splitOnL_cons]
    rw [if_neg (by simp [List.isPrefixOf]; intro hcx; exact absurd hcx.symm hx)]
    rw [ih hmem]

/-- Splitting on a single character absent from the text does not split. -/
theorem splitOnL_single_of_not_mem (c : Char) (a : List Char) (h : c ∉ a) :
    splitOnL [c] a = [a] := by
  induction a with
  | nil => simp [splitOnL_nil_eq]
  | cons x a ih =>
    have hx : x ≠ c := fun hxc => h (by simp [hxc])
    have hmem : c ∉ a := fun hc => h (by simp [hc])
    rw [splitOnL_cons]
    rw [if_neg (by simp [List.isPrefixOf]; intro hcx; exact absurd hcx.symm hx)]
    rw [ih hmem]

/-- The number of split pieces is the occurrence count plus one
(Python: `len(s.split(sep)) == s.count(sep) + 1`). -/
theorem splitOnL_length (sep l : List Char) :
    (splitOnL sep l).length = countOccsL sep l + 1 := by
  suffices key : ∀ n (l : List Char), l.length ≤ n →
      (splitOnL sep l).length = countOccsL sep l + 1 from key l.length l le_rfl
  intro n
  induction n with
  | zero =>
    intro l hl
    obtain rfl : l = [] := List.eq_nil_of_length_eq_zero (Nat.le_zero.mp hl)
    rfl
  | succ n ih =>
    intro l hl
    cases l with
    | nil => rfl
    | cons c cs =>
      rw [splitOnL_cons, countOccsL_cons]
      split
      · rename_i h
        have hle : ((c :: cs).drop sep.length).length ≤ n := by
          have : 0 < sep.length := List.length_pos.mpr h.1
          simp only [List.length_drop, List.length_cons]
          simp only [List.length_cons] at hl
          omega
        rw [List.length_cons, ih _ hle]
      · have hle : cs.length ≤ n := by
          simp only [List.length_cons] at hl; omega
        have hrec := ih cs hle
        obtain ⟨m, ms, hm⟩ := List.exists_cons_of_ne_nil (splitOnL_ne_nil sep cs)
        rw [hm] at hrec ⊢
        simpa using hrec

theorem countOccsL_nil (pat : List Char) : countOccsL pat [] = 0 := rfl

theorem countOccsL_cons_pos (pat : List Char) (x : Char) (xs : List Char)
    (h : pat ≠ [] ∧ pat.isPrefixOf (x :: xs)) :
    countOccsL pat (x :: xs) = countOccsL pat ((x :: xs).drop pat.length) + 1 := by
  rw [countOccsL_cons, if_pos h]

theorem countOccsL_cons_neg (pat : List Char) (x : Char) (xs : List Char)
    (h : ¬ (pat ≠ [] ∧ pat.isPrefixOf (x :: xs))) :
    countOccsL pat (x :: xs) = countOccsL pat xs := by
  rw [countOccsL_cons, if_neg h]

/-- A nonempty pattern avoiding `c` is never a prefix of a list headed by `c`. -/
theorem not_isPrefixOf_cons_of_not_mem (pat : List Char) (hp : pat ≠ [])
    (c : Char) (hc : c ∉ pat) (b : List Char) :
    ¬ pat.isPrefixOf (c :: b) := by
  intro hpre
  obtain ⟨t, ht⟩ := List.isPrefixOf_iff_prefix.mp hpre
  cases pat with
  | nil => exact hp rfl
  | cons p ps =>
    simp only [List.cons_append, List.cons.injEq] at ht
    exact hc (by simp [ht.1])

/-- A greedy occurrence count distributes over concatenation when the two
sides are separated by a character that cannot occur inside the pattern. -/
theorem countOccsL_append_cons (pat : List Char) (hp : pat ≠ []) (c : Char)
    (hc : c ∉ pat) (a b : List Char) :
    countOccsL pat (a ++ c :: b) = countOccsL pat a + countOccsL pat b := by
  suffices key : ∀ n (a b : List Char), a.length ≤ n →
      countOccsL pat (a ++ c :: b) = countOccsL pat a + countOccsL pat b from
    key a.length a b le_rfl
  intro n
  induction n with
  | zero =>
    intro a b ha
    obtain rfl : a = [] := List.eq_nil_of_length_eq_zero (Nat.le_zero.mp ha)
    rw [List.nil_append, countOccsL_nil,
      countOccsL_cons_neg pat c b
        (fun hx => not_isPrefixOf_cons_of_not_mem pat hp c hc b hx.2)]
    omega
  | succ n ih =>
    intro a b ha
    cases a with
    | nil =>
      rw [List.nil_append, countOccsL_nil,
        countOccsL_cons_neg pat c b
          (fun hx => not_isPrefixOf_cons_of_not_mem pat hp c hc b hx.2)]
      omega
    | cons x a =>
      by_cases hpre : pat.isPrefixOf (x :: (a ++ c :: b))
      · have hlen : pat.length ≤ (x :: a).length := by
          by_contra hgt
          push_neg at hgt
          have hpfx := List.isPrefixOf_iff_prefix.mp hpre
          have htake := List.prefix_iff_eq_take.mp hpfx
          rw [show x :: (a ++ c :: b) = (x :: a) ++ c :: b from rfl,
            List.take_append_eq_append_take] at htake
          have htk : (c :: b).take (pat.length - (x :: a).length) =
              c :: (b.take (pat.length - (x :: a).length - 1)) := by
            obtain ⟨k, hk⟩ : ∃ k, pat.length - (x :: a).length = k + 1 := by
              refine ⟨pat.length - (x :: a).length - 1, ?_⟩
              simp only [List.length_cons] at hgt ⊢
              omega
            rw [hk]
            simp [List.take_succ_cons]
          rw [htk] at htake
          apply hc
          rw [htake]
          exact List.mem_append_right _ (by simp)
        have hpfx : pat.isPrefixOf (x :: a) := by
          apply List.isPrefixOf_iff_prefix.mpr
          have hpfx := List.isPrefixOf_iff_prefix.mp hpre
          have htake := List.prefix_iff_eq_take.mp hpfx
          rw [show x :: (a ++ c :: b) = (x :: a) ++ c :: b from rfl,
            List.take_append_eq_append_take] at htake
          have h0 : pat.length - (x :: a).length = 0 := by omega
          rw [h0] at htake
          simp only [List.take_zero, List.append_nil] at htake
          rw [htake]
          exact List.take_prefix _ _
        rw [show (x :: a) ++ c :: b = x :: (a ++ c :: b) from rfl]
        rw [countOccsL_cons_pos pat x (a ++ c :: b) ⟨hp, hpre⟩]
        have hdrop : (x :: (a ++ c :: b)).drop pat.length =
            ((x :: a).drop pat.length) ++ c :: b := by
          rw [show x :: (a ++ c :: b) = (x :: a) ++ c :: b from rfl,
            List.drop_append_eq_append_drop]
          have h0 : pat.length - (x :: a).length = 0 := by omega
          rw [h0]
          simp
        rw [hdrop]
        have hle : ((x :: a).drop pat.length).length ≤ n := by
          have hplen : 0 < pat.length := List.length_pos.mpr hp
          simp only [List.length_drop, List.length_cons]
          simp only [List.length_cons] at ha
          omega
        rw [ih _ b hle]
        cases hpn : pat with
        | nil => exact absurd hpn hp
        | cons p ps =>
          rw [← hpn]
          rw [countOccsL_cons_pos pat x a ⟨hp, hpfx⟩]
          omega
      · have hnp : ¬ pat.isPrefixOf (x :: a) := by
          intro hx
          apply hpre
          apply List.isPrefixOf_iff_prefix.mpr
          exact (List.isPrefixOf_iff_prefix.mp hx).trans (by
            rw [show x :: (a ++ c :: b) = (x :: a) ++ c :: b from rfl]
            exact List.prefix_append _ _)
        have hle : a.length ≤ n := by
          simp only [List.length_cons] at ha; omega
        rw [show (x :: a) ++ c :: b = x :: (a ++ c :: b) from rfl]
        rw [countOccsL_cons_neg pat x (a ++ c :: b) (fun hx => hpre hx.2)]
        rw [ih a b hle]
        rw [countOccsL_cons_neg pat x a (fun hx => hnp hx.2)]

/-- Stripping an initial whitespace character. -/
theorem pyStrip_cons_ws (x : Char) (xs : List Char) (h : isPyWs x = true) :
    pyStrip (x :: xs) = pyStrip xs := by
  simp [pyStrip, List.dropWhile_cons, h]

/-- A list whose head does not satisfy `p` keeps that head after
trailing removal. -/
theorem dropTrailing_cons_not (p : Char → Bool) (x : Char) (xs : List Char)
    (h : p x = false) : ∃ t, dropTrailing p (x :: xs) = x :: t := by
  unfold dropTrailing
  rw [List.reverse_cons, List.dropWhile_append]
  by_cases he : (xs.reverse.dropWhile p).isEmpty = true
  · rw [if_pos he]
    exact ⟨[], by simp [List.dropWhile_cons, h]⟩
  · rw [if_neg he, List.reverse_append]
    exact ⟨(xs.reverse.dropWhile p).reverse, by simp⟩

/-- A list whose head is not whitespace strips to a list with the same head. -/
theorem pyStrip_cons_not_ws (x : Char) (xs : List Char) (h : isPyWs x = false) :
    ∃ t, pyStrip (x :: xs) = x :: t := by
  simp only [pyStrip, List.dropWhile_cons, h, Bool.false_eq_true, if_false]
  exact dropTrailing_cons_not isPyWs x xs h

theorem pyStrip_nil : pyStrip [] = [] := rfl

/-- Characters of a split piece come from the original text. -/
theorem mem_of_mem_splitOnL (sep l : List Char) (part : List Char)
    (hpart : part ∈ splitOnL sep l) (c : Char) (hc : c ∈ part) : c ∈ l := by
  suffices key : ∀ n (l : List Char), l.length ≤ n →
      ∀ part ∈ splitOnL sep l, ∀ c ∈ part, c ∈ l from
    key l.length l le_rfl part hpart c hc
  intro n
  induction n with
  | zero =>
    intro l hl part hpart c hc
    obtain rfl : l = [] := List.eq_nil_of_length_eq_zero (Nat.le_zero.mp hl)
    simp [splitOnL_nil_eq] at hpart
    subst hpart
    simp at hc
  | succ n ih =>
    intro l hl part hpart c hc
    cases l with
    | nil =>
      simp [splitOnL_nil_eq] at hpart
      subst hpart
      simp at hc
    | cons x xs =>
      rw [splitOnL_cons] at hpart
      split at hpart
      · rename_i h
        rcases List.mem_cons.mp hpart with h1 | h1
        · subst h1; simp at hc
        · have hle : ((x :: xs).drop sep.length).length ≤ n := by
            have : 0 < sep.length := List.length_pos.mpr h.1
            simp only [List.length_drop, List.length_cons]
            simp only [List.length_cons] at hl
            omega
          have := ih _ hle part h1 c hc
          exact List.mem_of_mem_drop this
      · have hle : xs.length ≤ n := by
          simp only [List.length_cons] at hl; omega
        obtain ⟨m, ms, hm⟩ := List.exists_cons_of_ne_nil (splitOnL_ne_nil sep xs)
        rw [hm] at hpart
        rcases List.mem_cons.mp hpart with h1 | h1
        · subst h1
          rcases List.mem_cons.mp hc with h2 | h2
          · simp [h2]
          · have := ih _ hle m (by rw [hm]; exact List.mem_cons_self _ _) c h2
            simp [this]
        · have := ih _ hle part (by rw [hm]; exact List.mem_cons_of_mem _ h1) c hc
          simp [this]

/-- Characters of a join come from the parts or from the separator. -/
theorem mem_joinSep (sep : List Char) (parts : List (List Char)) (c : Char)
    (hc : c ∈ joinSep sep parts) : (∃ part ∈ parts, c ∈ part) ∨ c ∈ sep := by
  induction parts with
  | nil => simp [joinSep] at hc
  | cons p ps ih =>
    cases ps with
    | nil =>
      simp only [joinSep] at hc
      exact Or.inl ⟨p, by simp, hc⟩
    | cons q qs =>
      simp only [joinSep, List.append_assoc, List.mem_append] at hc
      rcases hc with h1 | h1 | h1
      · exact Or.inl ⟨p, by simp, h1⟩
      · exact Or.inr h1
      · rcases ih h1 with ⟨part, hp, hcp⟩ | h3
        · exact Or.inl ⟨part, List.mem_cons_of_mem _ hp, hcp⟩
        · exact Or.inr h3

theorem digitChar_ne_newline (n : Nat) : Nat.digitChar n ≠ '\n' := by
  by_cases h : n < 16
  · interval_cases n <;> decide
  · have hs : Nat.digitChar n = '*' := by
      rw [Nat.digitChar]
      repeat rw [if_neg (by omega)]
    rw [hs]
    decide

theorem toDigitsCore_ne_newline (b : Nat) :
    ∀ (fuel n : Nat) (acc : List Char), (∀ c ∈ acc, c ≠ '\n') →
      ∀ c ∈ Nat.toDigitsCore b fuel n acc, c ≠ '\n' := by
  intro fuel
  induction fuel with
  | zero => intro n acc hacc c hc; exact hacc c hc
  | succ fuel ih =>
    intro n acc hacc c hc
    rw [Nat.toDigitsCore] at hc
    split at hc
    · rcases List.mem_cons.mp hc with h1 | h1
      · rw [h1]; exact digitChar_ne_newline _
      · exact hacc c h1
    · refine ih _ _ ?_ c hc
      intro d hd
      rcases List.mem_cons.mp hd with h1 | h1
      · rw [h1]; exact digitChar_ne_newline _
      · exact hacc d h1

/-- The decimal rendering of a natural number contains no newline. -/
theorem toString_nat_ne_newline (n : Nat) : '\n' ∉ (toString n).data := by
  intro hmem
  have h : (toString n).data = Nat.toDigits 10 n := rfl
  rw [h] at hmem
  exact toDigitsCore_ne_newline 10 (n + 1) n [] (by simp) '\n' hmem rfl

/-! ## Provider abstraction (`llm_providers.py`)

The four providers registered in `LLM_PROVIDERS`.  Each provider makes at
most one network call inside `generate_text`; its outcome, together with
whether the provider's credential/configuration is present, is an oracle
parameter (`ProviderEnv`).  All exception paths of the Python code are the
`Except.error` cases of the oracle. -/

inductive ProviderName
  | ollama
  | openai
  | claude
  | mistral
deriving DecidableEq

/-- Oracle for configuration state and network outcomes.  `ollamaResponse`
is the outcome of `requests.post(...).json().get("response", "")` (any
raised exception, rendered as a message, is the `error` case); the `Key`
fields record whether the vendor client object was constructed
(environment credential present); `ollamaTagsOk` is whether
`GET /api/tags` returned status 200. -/
structure ProviderEnv where
  ollamaResponse : Except String String
  ollamaTagsOk : Bool
  openaiKey : Bool
  openaiResponse : Except String String
  claudeKey : Bool
  claudeResponse : Except String String
  mistralKey : Bool
  mistralResponse : Except String String

/-- `OllamaProvider.generate_text` / `OpenAIProvider.generate_text` /
`ClaudeProvider.generate_text` / `MistralProvider.generate_text`. -/
def generate_text (env : ProviderEnv) : ProviderName → String → String
  | .ollama, _ =>
    match env.ollamaResponse with
    | .ok t => t
    | .error e => "[Error contacting Ollama: " ++ e ++ "]"
  | .openai, _ =>
    if env.openaiKey then
      match env.openaiResponse with
      | .ok t => t
      | .error e => "[Error contacting OpenAI: " ++ e ++ "]"
    else "[Error: OpenAI API key not configured]"
  | .claude, _ =>
    if env.claudeKey then
      match env.claudeResponse with
      | .ok t => t
      | .error e => "[Error contacting Claude: " ++ e ++ "]"
    else "[Error: Anthropic API key not configured]"
  | .mistral, _ =>
    if env.mistralKey then
      match env.mistralResponse with
      | .ok t => t
      | .error e => "[Error contacting Mistral: " ++ e ++ "]"
    else "[Error: Mistral API key not configured]"

/-- The `is_available` property of each provider. -/
def is_available (env : ProviderEnv) : ProviderName → Bool
  | .ollama => env.ollamaTagsOk
  | .openai => env.openaiKey
  | .claude => env.claudeKey
  | .mistral => env.mistralKey

/-- Key lookup in the `LLM_PROVIDERS` registry dict. -/
def lookupProvider (name : String) : Option ProviderName :=
  if name = "ollama" then some .ollama
  else if name = "openai" then some .openai
  else if name = "claude" then some .claude
  else if name = "mistral" then some .mistral
  else none

/-- `get_provider`: unknown keys and unavailable providers raise
`ValueError`, modelled as `Except.error` carrying `str(e)`. -/
def get_provider (env : ProviderEnv) (provider_name : String) :
    Except String ProviderName :=
  match lookupProvider provider_name with
  | none => .error ("Unknown provider: " ++ provider_name)
  | some p =>
    if is_available env p then .ok p
    else .error ("Provider '" ++ provider_name ++
      "' is offline or not properly configured")

/-- `generate_story` from `app.py`: dispatches through `get_provider` and
converts any exception `e` into the string `[Error with <provider>: <e>]`. -/
def generate_story (env : ProviderEnv) (provider_name prompt : String) :
    String :=
  match get_provider env provider_name with
  | .ok p => generate_text env p prompt
  | .error e => "[Error with " ++ provider_name ++ ": " ++ e ++ "]"

/-- The network outcome `generate_text` would observe for a provider. -/
def providerResponse (env : ProviderEnv) : ProviderName → Except String String
  | .ollama => env.ollamaResponse
  | .openai => env.openaiResponse
  | .claude => env.claudeResponse
  | .mistral => env.mistralResponse

theorem errSentinel_append (pre s : String) (h : "[Error".data <+: pre.data) :
    "[Error".data <+: (pre ++ s).data := by
  rw [String.data_append]
  exact h.trans (List.prefix_append _ _)

/-- C1: for every provider name and every prompt, `generate_story` is a
total String-valued function (the embedding of "never raises past its
boundary"); its result either is the provider's successful network
response, or — on any failure (unknown key, unavailable/misconfigured
provider, or a failing network call) — begins with `[Error`. -/
theorem claim_C1_generate_story_error_sentinel (env : ProviderEnv)
    (provider_name prompt : String) :
    (∃ p t, lookupProvider provider_name = some p ∧
        is_available env p = true ∧ providerResponse env p = .ok t ∧
        generate_story env provider_name prompt = t) ∨
    "[Error".data <+: (generate_story env provider_name prompt).data := by
  cases hl : lookupProvider provider_name with
  | none =>
    right
    have hg : generate_story env provider_name prompt =
        "[Error with " ++ provider_name ++ ": " ++
          ("Unknown provider: " ++ provider_name) ++ "]" := by
      simp [generate_story, get_provider, hl]
    rw [hg]
    exact errSentinel_append _ _ (errSentinel_append _ _
      (errSentinel_append _ _ (errSentinel_append _ _ (by decide))))
  | some p =>
    by_cases hav : is_available env p = true
    · have hg : generate_story env provider_name prompt =
          generate_text env p prompt := by
        simp [generate_story, get_provider, hl, hav]
      rw [hg]
      cases p with
      | ollama =>
        cases hr : env.ollamaResponse with
        | ok t =>
          left
          exact ⟨.ollama, t, rfl, hav, hr, by simp [generate_text, hr]⟩
        | error e =>
          right
          simp only [generate_text, hr]
          exact errSentinel_append _ _ (errSentinel_append _ _ (by decide))
      | openai =>
        have hk : env.openaiKey = true := hav
        cases hr : env.openaiResponse with
        | ok t =>
          left
          exact ⟨.openai, t, rfl, hav, hr, by simp [generate_text, hr, hk]⟩
        | error e =>
          right
          simp only [generate_text, hr, hk, if_true]
          exact errSentinel_append _ _ (errSentinel_append _ _ (by decide))
      | claude =>
        have hk : env.claudeKey = true := hav
        cases hr : env.claudeResponse with
        | ok t =>
          left
          exact ⟨.claude, t, rfl, hav, hr, by simp [generate_text, hr, hk]⟩
        | error e =>
          right
          simp only [generate_text, hr, hk, if_true]
          exact errSentinel_append _ _ (errSentinel_append _ _ (by decide))
      | mistral =>
        have hk : env.mistralKey = true := hav
        cases hr : env.mistralResponse with
        | ok t =>
          left
          exact ⟨.mistral, t, rfl, hav, hr, by simp [generate_text, hr, hk]⟩
        | error e =>
          right
          simp only [generate_text, hr, hk, if_true]
          exact errSentinel_append _ _ (errSentinel_append _ _ (by decide))
    · have hg : generate_story env provider_name prompt =
          "[Error with " ++ provider_name ++ ": " ++
            ("Provider '" ++ provider_name ++
              "' is offline or not properly configured") ++ "]" := by
        simp [generate_story, get_provider, hl, hav]
      rw [hg]
      right
      exact errSentinel_append _ _ (errSentinel_append _ _
        (errSentinel_append _ _ (errSentinel_append _ _ (by decide))))

/-! ## Title extraction (`extract_story_title` in `app.py`) -/

/-- The `TITLE_EXTRACTION_PROMPT` constant. -/
def TITLE_EXTRACTION_PROMPT : String :=
  "\nBased on the following bedtime story, create a short, catchy title that captures the essence of the story.\nThe title should be:\n- 3-8 words long\n- Child-friendly and engaging\n- Capture the main adventure or theme\n- Suitable for a bedtime story\n\nOnly respond with the title, nothing else.\n\nStory:\n"

/-- The character class of `re.sub(r'[<>:\"/\\\\|?*]', '', title)`. -/
def illegalFilenameChars : List Char :=
  ['<', '>', ':', '"', '/', '\\', '|', '?', '*']

/-- The sanitization pipeline of `extract_story_title` before the
final fallback: strip whitespace, strip surrounding quotes, delete
filename-illegal characters, turn spaces into underscores, truncate to
80 code points. -/
def sanitizeTitleCore (raw : String) : String :=
  ⟨(((stripCharsS ['"', '\''] (pyStripS raw)).data.filter
      (fun c => !illegalFilenameChars.contains c)).map
      (fun c => if c = ' ' then '_' else c)).take 80⟩

/-- `extract_story_title`'s result for a given raw provider response:
the sanitized title, or the constant placeholder when it sanitizes to
the empty string. -/
def sanitizeTitle (raw : String) : String :=
  if sanitizeTitleCore raw = "" then "Untitled_Story" else sanitizeTitleCore raw

/-- `extract_story_title(provider_name, story)`: queries the provider
(`gen` is the oracle for `generate_story provider_name`) with the title
prompt and sanitizes the answer. -/
def extract_story_title (gen : String → String) (story : String) : String :=
  sanitizeTitle (gen (TITLE_EXTRACTION_PROMPT ++ story))

theorem mem_of_mem_dropTrailing (p : Char → Bool) (l : List Char) (c : Char)
    (h : c ∈ dropTrailing p l) : c ∈ l := by
  unfold dropTrailing at h
  rw [List.mem_reverse] at h
  exact List.mem_reverse.mp ((List.dropWhile_sublist p).subset h)

theorem mem_of_mem_pyStrip (l : List Char) (c : Char) (h : c ∈ pyStrip l) :
    c ∈ l := by
  unfold pyStrip at h
  exact (List.dropWhile_sublist isPyWs).subset (mem_of_mem_dropTrailing _ _ _ h)

theorem mem_of_mem_stripCharsS (cs : List Char) (s : String) (c : Char)
    (h : c ∈ (stripCharsS cs s).data) : c ∈ s.data := by
  unfold stripCharsS at h
  exact (List.dropWhile_sublist _).subset (mem_of_mem_dropTrailing _ _ _ h)

/-- Every character of a sanitized title is a character of the raw
response or an underscore. -/
theorem mem_sanitizeTitleCore (raw : String) (c : Char)
    (h : c ∈ (sanitizeTitleCore raw).data) : c ∈ raw.data ∨ c = '_' := by
  unfold sanitizeTitleCore at h
  have h1 := (List.take_sublist 80 _).subset h
  obtain ⟨d, hd, hdc⟩ := List.mem_map.mp h1
  have h2 := (List.mem_filter.mp hd).1
  have h3 := mem_of_mem_pyStrip _ _ (mem_of_mem_stripCharsS _ _ _ h2)
  by_cases hsp : d = ' '
  · right; rw [← hdc, hsp]; simp
  · left; rw [← hdc]; simp only [if_neg hsp]; exact h3

/-- C7: `extract_story_title` always returns a non-empty, filename-safe
string — none of the characters `<>:"/\|?*`, no spaces — of length at
most the 80-code-point cap, and falls back to the constant placeholder
`Untitled_Story` exactly when the raw title sanitizes to the empty
string. -/
theorem claim_C7_extract_title_filename_safe (gen : String → String)
    (story : String) :
    extract_story_title gen story ≠ "" ∧
    (∀ c ∈ (extract_story_title gen story).data,
      c ∉ illegalFilenameChars ∧ c ≠ ' ') ∧
    (extract_story_title gen story).length ≤ 80 ∧
    (sanitizeTitleCore (gen (TITLE_EXTRACTION_PROMPT ++ story)) = "" →
      extract_story_title gen story = "Untitled_Story") := by
  unfold extract_story_title sanitizeTitle
  by_cases hc : sanitizeTitleCore (gen (TITLE_EXTRACTION_PROMPT ++ story)) = ""
  · rw [if_pos hc]
    refine ⟨by decide, ?_, by decide, fun _ => rfl⟩
    have hall : ∀ c ∈ "Untitled_Story".data, c ∉ illegalFilenameChars ∧ c ≠ ' ' := by
      decide
    exact hall
  · rw [if_neg hc]
    refine ⟨hc, ?_, ?_, fun h => absurd h hc⟩
    · intro c hcmem
      unfold sanitizeTitleCore at hcmem
      obtain ⟨d, hd, hdc⟩ := List.mem_map.mp ((List.take_sublist 80 _).subset hcmem)
      have hdf := List.mem_filter.mp hd
      constructor
      · intro hbad
        by_cases hsp : d = ' '
        · rw [← hdc, if_pos hsp] at hbad
          revert hbad; decide
        · rw [← hdc, if_neg hsp] at hbad
          have hnc := hdf.2
          simp only [Bool.not_eq_true'] at hnc
          exact absurd hbad (by simpa using hnc)
      · intro hsp'
        by_cases hsp : d = ' '
        · rw [← hdc, if_pos hsp] at hsp'
          revert hsp'; decide
        · rw [← hdc, if_neg hsp] at hsp'
          exact hsp hsp'
    · unfold sanitizeTitleCore
      simp [String.length]

/-- Witness for C7 at a concrete raw title: the sanitized value and the
non-emptiness guarantee at that input. -/
theorem claim_C7_extract_title_filename_safe_witness :
    extract_story_title (fun _ => "  \"My <Best> Story?\"  ") "s" =
      "My_Best_Story" ∧
    extract_story_title (fun _ => "  \"My <Best> Story?\"  ") "s" ≠ "" :=
  ⟨by decide,
   (claim_C7_extract_title_filename_safe
      (fun _ => "  \"My <Best> Story?\"  ") "s").1⟩

/-! ## Chapter continuation (`generate_chapter` in `app.py`) -/

/-- The chapter-append step of `generate_chapter` (app.py lines 668-673):
count the existing `## Chapter` markers, add 2, and append the new chapter
text under a horizontal rule with that heading. -/
def append_chapter (current_story new_chapter : String) : String :=
  current_story ++ "\n\n---\n\n## Chapter " ++
    toString (countS "## Chapter" current_story + 2) ++ "\n\n" ++ new_chapter

theorem countS_append_chapter (story new : String) (k : Nat)
    (hs : countS "## Chapter" story = k)
    (hn : countS "## Chapter" new = 0)
    (num : String)
    (hone : countOccsL "## Chapter".data ("\n---\n\n## Chapter ".data ++
      num.data ++ ['\n']) = 1) :
    countS "## Chapter"
      (story ++ ("\n\n---\n\n## Chapter " ++ num ++ "\n\n") ++ new) = k + 1 := by
  have hp : "## Chapter".data ≠ [] := by decide
  have hnl : '\n' ∉ "## Chapter".data := by decide
  unfold countS at hs hn ⊢
  rw [String.data_append, String.data_append]
  have hshape : ("\n\n---\n\n## Chapter " ++ num ++ "\n\n").data =
      '\n' :: (("\n---\n\n## Chapter ".data ++ num.data) ++ '\n' :: ['\n']) := by
    simp [String.data_append]
  rw [hshape]
  rw [show story.data ++ ('\n' :: (("\n---\n\n## Chapter ".data ++ num.data) ++
        '\n' :: ['\n'])) ++ new.data =
      story.data ++ '\n' :: ((("\n---\n\n## Chapter ".data ++ num.data) ++
        ['\n']) ++ '\n' :: new.data) by simp]
  rw [countOccsL_append_cons _ hp '\n' hnl story.data _]
  rw [countOccsL_append_cons _ hp '\n' hnl _ new.data]
  rw [hs, hn]
  rw [show ("\n---\n\n## Chapter ".data ++ num.data) ++ ['\n'] =
      "\n---\n\n## Chapter ".data ++ num.data ++ ['\n'] by simp]
  rw [hone]

/-- C3: appending a chapter uses chapter number
`count("## Chapter") + 2` and produces exactly
`original + delimiter + "## Chapter N" + new text`; on a story with no
prior markers the first append yields exactly one marker, reading
`## Chapter 2`, and a second append appends `## Chapter 3` and yields
exactly two markers. -/
theorem claim_C3_chapter_numbering (story c1 c2 : String)
    (hs : countS "## Chapter" story = 0)
    (h1 : countS "## Chapter" c1 = 0)
    (h2 : countS "## Chapter" c2 = 0) :
    (∀ cur new : String, append_chapter cur new =
      cur ++ "\n\n---\n\n## Chapter " ++
        toString (countS "## Chapter" cur + 2) ++ "\n\n" ++ new) ∧
    append_chapter story c1 = story ++ "\n\n---\n\n## Chapter 2\n\n" ++ c1 ∧
    countS "## Chapter" (append_chapter story c1) = 1 ∧
    append_chapter (append_chapter story c1) c2 =
      append_chapter story c1 ++ "\n\n---\n\n## Chapter 3\n\n" ++ c2 ∧
    countS "## Chapter" (append_chapter (append_chapter story c1) c2) = 2 := by
  have heq1 : append_chapter story c1 =
      story ++ ("\n\n---\n\n## Chapter " ++ "2" ++ "\n\n") ++ c1 := by
    unfold append_chapter
    rw [hs]
    rw [show toString (0 + 2 : Nat) = "2" from rfl]
    simp [String.append_assoc]
  have hcount1 : countS "## Chapter" (append_chapter story c1) = 1 := by
    rw [heq1]
    exact countS_append_chapter story c1 0 hs h1 "2" (by decide)
  have heq2 : append_chapter (append_chapter story c1) c2 =
      append_chapter story c1 ++ ("\n\n---\n\n## Chapter " ++ "3" ++ "\n\n") ++ c2 := by
    generalize hgen : append_chapter story c1 = s₁ at hcount1 ⊢
    unfold append_chapter
    rw [hcount1]
    rw [show toString (1 + 2 : Nat) = "3" from rfl]
    simp [String.append_assoc]
  have hcount2 : countS "## Chapter"
      (append_chapter (append_chapter story c1) c2) = 2 := by
    rw [heq2]
    exact countS_append_chapter (append_chapter story c1) c2 1 hcount1 h2 "3"
      (by decide)
  refine ⟨fun _ _ => rfl, ?_, hcount1, ?_, hcount2⟩
  · rw [heq1]
    rw [show ("\n\n---\n\n## Chapter " ++ "2" ++ "\n\n" : String) =
        "\n\n---\n\n## Chapter 2\n\n" from by decide]
  · rw [heq2]
    rw [show ("\n\n---\n\n## Chapter " ++ "3" ++ "\n\n" : String) =
        "\n\n---\n\n## Chapter 3\n\n" from by decide]

/-- Witness for C3 at concrete inputs. -/
theorem claim_C3_chapter_numbering_witness :
    append_chapter "Once upon a time." "A second tale." =
      "Once upon a time." ++ "\n\n---\n\n## Chapter 2\n\n" ++ "A second tale." ∧
    countS "## Chapter"
      (append_chapter "Once upon a time." "A second tale.") = 1 :=
  ⟨(claim_C3_chapter_numbering "Once upon a time." "A second tale." "The end."
      (by decide) (by decide) (by decide)).2.1,
   (claim_C3_chapter_numbering "Once upon a time." "A second tale." "The end."
      (by decide) (by decide) (by decide)).2.2.1⟩

/-! ## Image embedding (`embed_image_in_story` in `app.py`) -/

/-- The `image_markdown` reference the multi-chapter loop appends to the
chapter at 0-based split index `i` (displayed chapter number `i + 1`):
index 0 keeps the unsuffixed image filename, later indices suffix the
base name (filename minus `.png`) with `_chapter_{i+1}.png`. -/
def chapterImageRef (image_filename : String) (i : Nat) : String :=
  "\n\n![Chapter " ++ toString (i + 1) ++ " Illustration](static/images/" ++
    (if i = 0 then image_filename
     else replaceS ".png" "" image_filename ++ "_chapter_" ++
       toString (i + 1) ++ ".png") ++ ")"

/-- The `for i, chapter in enumerate(chapters)` loop of
`embed_image_in_story`: each chapter is stripped; nonempty chapters get
their image reference appended, empty ones are kept (stripped) without
a reference. -/
def embedChapters (image_filename : String) : Nat → List String → List String
  | _, [] => []
  | i, ch :: rest =>
    (if pyStripS ch = "" then pyStripS ch
     else pyStripS ch ++ chapterImageRef image_filename i) ::
    embedChapters image_filename (i + 1) rest

/-- `embed_image_in_story(story_content, image_filename)`: no-op on an
empty filename; single-chapter stories (no `---` in the text) get one
reference appended at the end; multi-chapter stories are split on `---`,
every chapter gets its per-chapter reference, and the pieces are
re-joined with `\n\n---\n\n`. -/
def embed_image_in_story (story_content image_filename : String) : String :=
  if image_filename = "" then story_content
  else if (splitOnS "---" story_content).length = 1 then
    story_content ++ "\n\n![Story Illustration](static/images/" ++
      image_filename ++ ")"
  else
    joinSepS "\n\n---\n\n"
      (embedChapters image_filename 0 (splitOnS "---" story_content))

theorem embedChapters_eq_mapIdx (image_filename : String) :
    ∀ (chs : List String) (i : Nat),
      (∀ ch ∈ chs, pyStripS ch ≠ "") →
      embedChapters image_filename i chs =
        chs.mapIdx (fun j ch => pyStripS ch ++ chapterImageRef image_filename (i + j)) := by
  intro chs
  induction chs with
  | nil => intro i _; simp [embedChapters]
  | cons ch rest ih =>
    intro i hne
    rw [List.mapIdx_cons]
    show (if pyStripS ch = "" then pyStripS ch
        else pyStripS ch ++ chapterImageRef image_filename i) ::
      embedChapters image_filename (i + 1) rest = _
    rw [if_neg (hne ch (by simp))]
    have hrest := ih (i + 1) (fun c hc => hne c (List.mem_cons_of_mem _ hc))
    rw [hrest]
    have hfun : (fun j ch => pyStripS ch ++
        chapterImageRef image_filename ((i + 1) + j)) =
        (fun j (ch : String) => pyStripS ch ++
          chapterImageRef image_filename (i + (j + 1))) := by
      funext j ch
      rw [show (i + 1) + j = i + (j + 1) by omega]
    rw [hfun]
    rw [Nat.add_zero]

/-- C10: `embed_image_in_story` called with an empty image filename
returns the story text completely unchanged. -/
theorem claim_C10_embed_empty_filename_identity (story_content : String) :
    embed_image_in_story story_content "" = story_content := by
  simp [embed_image_in_story]

/-- C9: for a nonempty image filename: a text with no `---` delimiter gets
exactly one image reference appended at its end; a text with delimiters
(whose chapters are nonempty after stripping) gets one image reference
per chapter, chapter 1 (index 0) using the unsuffixed filename and each
later chapter `N = i + 1` the base filename suffixed `_chapter_N.png`. -/
theorem claim_C9_embed_image_per_chapter (story fn : String) (hfn : fn ≠ "") :
    (countS "---" story = 0 →
      embed_image_in_story story fn =
        story ++ "\n\n![Story Illustration](static/images/" ++ fn ++ ")") ∧
    (0 < countS "---" story →
      (∀ ch ∈ splitOnS "---" story, pyStripS ch ≠ "") →
      embed_image_in_story story fn =
        joinSepS "\n\n---\n\n"
          ((splitOnS "---" story).mapIdx
            (fun i ch => pyStripS ch ++ chapterImageRef fn i))) := by
  constructor
  · intro h0
    unfold embed_image_in_story
    rw [if_neg hfn]
    have hlen : (splitOnS "---" story).length = 1 := by
      unfold splitOnS
      unfold countS at h0
      rw [List.length_map, splitOnL_length, h0]
    rw [if_pos hlen]
  · intro hpos hne
    unfold embed_image_in_story
    rw [if_neg hfn]
    have hlen : ¬ (splitOnS "---" story).length = 1 := by
      unfold splitOnS
      unfold countS at hpos
      rw [List.length_map, splitOnL_length]
      omega
    rw [if_neg hlen]
    rw [embedChapters_eq_mapIdx fn _ 0 hne]
    have hfun : (fun j ch => pyStripS ch ++ chapterImageRef fn (0 + j)) =
        (fun j (ch : String) => pyStripS ch ++ chapterImageRef fn j) := by
      funext j ch
      rw [Nat.zero_add]
    rw [hfun]

/-- Witness for C9 at concrete inputs: a single-chapter story and a
two-chapter story. -/
theorem claim_C9_embed_image_per_chapter_witness :
    embed_image_in_story "A small tale." "img.png" =
      "A small tale." ++ "\n\n![Story Illustration](static/images/" ++
        "img.png" ++ ")" ∧
    embed_image_in_story "First part.\n\n---\n\nSecond part." "img.png" =
      joinSepS "\n\n---\n\n"
        ((splitOnS "---" "First part.\n\n---\n\nSecond part.").mapIdx
          (fun i ch => pyStripS ch ++ chapterImageRef "img.png" i)) :=
  ⟨(claim_C9_embed_image_per_chapter "A small tale." "img.png"
      (by decide)).1 (by decide),
   (claim_C9_embed_image_per_chapter "First part.\n\n---\n\nSecond part."
      "img.png" (by decide)).2 (by decide) (by decide)⟩

/-! ## File-backed session store (`app.py`)

Each session id owns one file `sessions/<id>.json` holding one JSON
object.  `json.dump` followed by `json.load` is the identity on the
parsed object, so the file system maps a session id directly to the
parsed key-value pairs (`none` = file absent; `load_session_data` also
returns `{}` on a parse error, which the model folds into `none`). -/

inductive Json
  | null
  | bool (b : Bool)
  | num (n : Int)
  | str (s : String)
  | arr (elems : List Json)
  | obj (fields : List (String × Json))

def SessionFS : Type := String → Option (List (String × Json))

/-- Python `dict.get(key, default)`: the first binding of `key` wins. -/
def dictGet (d : List (String × Json)) (key : String) (default : Json) :
    Json :=
  match d.find? (fun p => p.1 == key) with
  | some p => p.2
  | none => default

/-- Python `d[key] = value`: replace an existing binding in place,
otherwise append the new binding. -/
def dictSet (d : List (String × Json)) (key : String) (v : Json) :
    List (String × Json) :=
  if d.any (fun p => p.1 == key) then
    d.map (fun p => if p.1 == key then (key, v) else p)
  else d ++ [(key, v)]

/-- `load_session_data`: parse the session file; missing file (or any
error) yields the empty dict. -/
def load_session_data (fs : SessionFS) (session_id : String) :
    List (String × Json) :=
  (fs session_id).getD []

/-- `save_session_data`: overwrite the session file with the whole dict. -/
def save_session_data (fs : SessionFS) (session_id : String)
    (data : List (String × Json)) : SessionFS :=
  fun i => if i = session_id then some data else fs i

/-- `get_session_value`. -/
def get_session_value (fs : SessionFS) (session_id key : String)
    (default : Json) : Json :=
  dictGet (load_session_data fs session_id) key default

/-- `set_session_value`: read-modify-write of the whole session file. -/
def set_session_value (fs : SessionFS) (session_id key : String) (v : Json) :
    SessionFS :=
  save_session_data fs session_id
    (dictSet (load_session_data fs session_id) key v)

/-- A session-store mutation performed during a run of the app. -/
inductive SessionOp
  | set (session_id key : String) (v : Json)

def applySessionOp (fs : SessionFS) : SessionOp → SessionFS
  | .set id k v => set_session_value fs id k v

def runSessionOps (fs : SessionFS) : List SessionOp → SessionFS
  | [] => fs
  | op :: ops => runSessionOps (applySessionOp fs op) ops

def emptySessionFS : SessionFS := fun _ => none

theorem dictGet_dictSet_self (d : List (String × Json)) (k : String)
    (v default : Json) : dictGet (dictSet d k v) k default = v := by
  induction d with
  | nil =>
    simp [dictSet, dictGet, List.find?]
  | cons a rest ih =>
    by_cases ha : a.1 = k
    · unfold dictSet
      rw [if_pos (by simp [List.any_cons, ha])]
      unfold dictGet
      rw [List.map_cons]
      rw [show (if a.1 == k then (k, v) else a) = (k, v) from by simp [ha]]
      rw [List.find?_cons_of_pos _ (by simp)]
    · have hstep : dictSet (a :: rest) k v = a :: dictSet rest k v := by
        unfold dictSet
        by_cases hr : rest.any (fun p => p.1 == k)
        · rw [if_pos (by simp [List.any_cons, hr]), if_pos hr]
          rw [List.map_cons]
          rw [show (if a.1 == k then (k, v) else a) = a from by simp [ha]]
        · rw [if_neg (by simp [List.any_cons, ha, hr, beq_iff_eq]), if_neg hr]
          simp
      rw [hstep]
      unfold dictGet
      rw [List.find?_cons_of_neg _ (by simp [ha])]
      exact ih

theorem dictGet_dictSet_ne (d : List (String × Json)) (k k' : String)
    (hne : k ≠ k') (v default : Json) :
    dictGet (dictSet d k' v) k default = dictGet d k default := by
  by_cases hany : d.any (fun p => p.1 == k')
  · unfold dictSet
    rw [if_pos hany]
    unfold dictGet
    have hfind : ∀ (l : List (String × Json)),
        List.find? (fun p => p.1 == k)
          (l.map (fun p => if p.1 == k' then (k', v) else p)) =
        List.find? (fun p => p.1 == k) l := by
      intro l
      induction l with
      | nil => rfl
      | cons a rest ihl =>
        rw [List.map_cons]
        by_cases hak' : a.1 = k'
        · rw [show (if a.1 == k' then (k', v) else a) = (k', v) from by
            simp [hak']]
          rw [List.find?_cons_of_neg _ (by simp [Ne.symm hne]),
            List.find?_cons_of_neg _ (by simp [hak', Ne.symm hne]), ihl]
        · rw [show (if a.1 == k' then (k', v) else a) = a from by simp [hak']]
          by_cases hak : a.1 = k
          · rw [List.find?_cons_of_pos _ (by simp [hak]),
              List.find?_cons_of_pos _ (by simp [hak])]
          · rw [List.find?_cons_of_neg _ (by simp [hak]),
              List.find?_cons_of_neg _ (by simp [hak]), ihl]
    rw [hfind]
  · unfold dictSet
    rw [if_neg hany]
    unfold dictGet
    rw [List.find?_append]
    rw [show List.find? (fun p => p.1 == k) [(k', v)] = none from by
      rw [List.find?_cons_of_neg _ (by simp [Ne.symm hne])]
      rfl]
    cases List.find? (fun p => p.1 == k) d <;> rfl

theorem get_set_same_session (fs : SessionFS) (id k' k : String) (v : Json)
    (default : Json) :
    get_session_value (set_session_value fs id k' v) id k default =
      dictGet (dictSet (load_session_data fs id) k' v) k default := by
  unfold get_session_value set_session_value save_session_data
    load_session_data
  simp

theorem get_set_other_session (fs : SessionFS) (id id' k' k : String)
    (v : Json) (default : Json) (h : id' ≠ id) :
    get_session_value (set_session_value fs id' k' v) id k default =
      get_session_value fs id k default := by
  unfold get_session_value set_session_value save_session_data
    load_session_data
  show dictGet ((if id = id' then
      some (dictSet ((fs id').getD []) k' v) else fs id).getD []) k default =
    dictGet ((fs id).getD []) k default
  rw [if_neg (Ne.symm h)]

/-- C4: after `set(id, k, v)`, `get(id, k, default)` returns `v`; and in
any store reachable from the empty store by a sequence of `set`
operations, a key never set in a session reads as the caller-supplied
default (and `get` is total — it never fails). -/
theorem claim_C4_session_store_get_set :
    (∀ (fs : SessionFS) (id k : String) (v default : Json),
      get_session_value (set_session_value fs id k v) id k default = v) ∧
    (∀ (ops : List SessionOp) (id k : String) (default : Json),
      (∀ v, SessionOp.set id k v ∉ ops) →
      get_session_value (runSessionOps emptySessionFS ops) id k default =
        default) := by
  constructor
  · intro fs id k v default
    unfold get_session_value set_session_value save_session_data
      load_session_data
    simp only [if_pos rfl, Option.getD_some]
    exact dictGet_dictSet_self _ _ _ _
  · have key : ∀ (ops : List SessionOp) (fs : SessionFS) (id k : String)
        (default : Json),
        (∀ v, SessionOp.set id k v ∉ ops) →
        get_session_value fs id k default = default →
        get_session_value (runSessionOps fs ops) id k default = default := by
      intro ops
      induction ops with
      | nil => intro fs id k default _ h0; exact h0
      | cons op rest ih =>
        intro fs id k default hnot h0
        cases op with
        | set id' k' v' =>
          refine ih _ id k default
            (fun v hv => hnot v (List.mem_cons_of_mem _ hv)) ?_
          show get_session_value (set_session_value fs id' k' v') id k
            default = default
          by_cases hid : id' = id
          · subst hid
            have hk : k' ≠ k := by
              intro hkk
              subst hkk
              exact hnot v' (by simp)
            rw [get_set_same_session]
            rw [dictGet_dictSet_ne _ _ _ (Ne.symm hk)]
            exact h0
          · rw [get_set_other_session fs id id' k' k v' default hid]
            exact h0
    intro ops id k default hnot
    refine key ops emptySessionFS id k default hnot ?_
    rfl

/-- Witness for C4 at concrete inputs. -/
theorem claim_C4_session_store_get_set_witness :
    get_session_value
      (set_session_value emptySessionFS "sid" "story" (Json.str "Once"))
      "sid" "story" Json.null = Json.str "Once" ∧
    get_session_value
      (runSessionOps emptySessionFS
        [SessionOp.set "sid" "story" (Json.str "Once")])
      "sid" "missing" (Json.str "fallback") = Json.str "fallback" :=
  ⟨claim_C4_session_store_get_set.1 emptySessionFS "sid" "story"
      (Json.str "Once") Json.null,
   claim_C4_session_store_get_set.2
      [SessionOp.set "sid" "story" (Json.str "Once")] "sid" "missing"
      (Json.str "fallback")
      (by
        intro v hv
        simp only [List.mem_singleton] at hv
        have hbad : ("missing" : String) = "story" := by
          injection hv with h1 h2 h3
        exact absurd hbad (by decide))⟩

/-! ## Session eviction (`cleanup_old_sessions` in `app.py`) -/

/-- Python `s.endswith(suffix)`. -/
def endsWithS (suffix s : String) : Bool :=
  suffix.data.reverse.isPrefixOf s.data.reverse

/-- Whether the sweep removes a directory entry `(filename, mtime)`: a
`.json` file with `current_time - file_time > 86400`. -/
def isEvictable (now : Int) (entry : String × Int) : Bool :=
  endsWithS ".json" entry.1 && decide (now - entry.2 > 86400)

/-- `cleanup_old_sessions`: one pass over the directory listing
`(filename, mtime)` removing evictable entries.  `removeFails f = true`
models `os.remove(f)` raising an `OSError`; the `try/except` of the
Python code wraps the WHOLE `for` loop, so the first raise ends the
sweep — the failing file and every later entry stay on disk (the
exception itself is swallowed and only printed). -/
def cleanup_old_sessions (now : Int) (removeFails : String → Bool) :
    List (String × Int) → List (String × Int)
  | [] => []
  | entry :: rest =>
    if isEvictable now entry then
      if removeFails entry.1 then entry :: rest
      else cleanup_old_sessions now removeFails rest
    else entry :: cleanup_old_sessions now removeFails rest

/-- C5 counterexample: two over-age session files, removing the first
raises.  The sweep stops and the second over-age file (`b.json`, also
evictable) is NOT deleted — contradicting "a failure to evict one
individual file does not abort the sweep, so the remaining over-age
files are still deleted". -/
theorem claim_C5_counterexample :
    isEvictable 100000 ("b.json", 0) = true ∧
    cleanup_old_sessions 100000 (fun s => s == "a.json")
      [("a.json", 0), ("b.json", 0)] = [("a.json", 0), ("b.json", 0)] := by
  constructor
  · decide
  · decide

/-- C5 (amended): when no individual eviction fails, the sweep deletes
exactly the session files more than 24 hours old and retains every
other entry; but when removing one evictable file fails, the sweep
stops there and that file and every later-listed entry are retained. -/
theorem claim_C5_cleanup_sweep (now : Int) (removeFails : String → Bool)
    (files : List (String × Int)) :
    ((∀ e ∈ files, removeFails e.1 = false) →
      cleanup_old_sessions now removeFails files =
        files.filter (fun e => !isEvictable now e)) ∧
    (∀ (e : String × Int) (rest : List (String × Int)),
      isEvictable now e = true → removeFails e.1 = true →
      cleanup_old_sessions now removeFails (e :: rest) = e :: rest) := by
  constructor
  · intro hok
    induction files with
    | nil => rfl
    | cons entry rest ih =>
      show (if isEvictable now entry then
          if removeFails entry.1 then entry :: rest
          else cleanup_old_sessions now removeFails rest
        else entry :: cleanup_old_sessions now removeFails rest) = _
      by_cases hev : isEvictable now entry = true
      · rw [if_pos hev, if_neg (by rw [hok entry (by simp)]; simp)]
        rw [ih (fun e he => hok e (List.mem_cons_of_mem _ he))]
        rw [List.filter_cons]
        simp [hev]
      · rw [if_neg hev]
        rw [ih (fun e he => hok e (List.mem_cons_of_mem _ he))]
        rw [List.filter_cons]
        simp only [Bool.not_eq_true] at hev
        simp [hev]
  · intro e rest hev hfail
    show (if isEvictable now e then
        if removeFails e.1 then e :: rest
        else cleanup_old_sessions now removeFails rest
      else e :: cleanup_old_sessions now removeFails rest) = e :: rest
    rw [if_pos hev, if_pos hfail]

/-- Witness for the amended C5 at concrete inputs: a clean sweep deletes
exactly the over-age `.json` files, and a failing removal freezes the
rest of the listing. -/
theorem claim_C5_cleanup_sweep_witness :
    cleanup_old_sessions 100000 (fun _ => false)
      [("a.json", 0), ("b.txt", 0), ("c.json", 99000)] =
      [("b.txt", 0), ("c.json", 99000)] ∧
    cleanup_old_sessions 100000 (fun _ => true)
      [("a.json", 0), ("b.json", 0)] = [("a.json", 0), ("b.json", 0)] :=
  ⟨by
    rw [(claim_C5_cleanup_sweep 100000 (fun _ => false)
      [("a.json", 0), ("b.txt", 0), ("c.json", 99000)]).1
      (fun e _ => rfl)]
    decide,
   (claim_C5_cleanup_sweep 100000 (fun _ => true) []).2
    ("a.json", 0) [("b.json", 0)] (by decide) rfl⟩

/-! ## Story persistence (`save_story_to_file` / `load_story_from_file`)

The stories directory is a map from path to file content plus a flag for
`os.path.exists("stories")`.  `datetime.now()` renderings and the
provider's title response are oracle parameters. -/

structure StoryFS where
  files : String → Option String
  storiesDirOk : Bool

/-- The header-scanning loop of `load_story_from_file`: a `# ` line
updates the title (`line[2:].strip()`, last one before the delimiter
wins); the first other line whose strip is `---` ends the metadata and
the function returns the remaining lines (Python records
`story_start_idx = i + 1` and breaks).  Without a delimiter
`story_start_idx` stays 0, i.e. the body is the whole file (`none`). -/
def scanHeader : List (List Char) → List Char →
    List Char × Option (List (List Char))
  | [], title => (title, none)
  | line :: rest, title =>
    if "# ".data.isPrefixOf line then
      scanHeader rest (pyStrip (line.drop 2))
    else if pyStrip line = "---".data then (title, some rest)
    else scanHeader rest title

/-- The lines `'\n'.join(lines[story_start_idx:])` ranges over. -/
def bodyLines (lines : List (List Char)) : List (List Char) :=
  match (scanHeader lines "Untitled Story".data).2 with
  | some rest => rest
  | none => lines

/-- What `load_story_from_file` computes from a file's content:
`(title, story_content)`. -/
def parseStoryContent (content : String) : String × String :=
  (⟨(scanHeader (splitOnL ['\n'] content.data) "Untitled Story".data).1⟩,
   ⟨pyStrip (joinSep ['\n'] (bodyLines (splitOnL ['\n'] content.data)))⟩)

/-- `load_story_from_file(filename)`. -/
def load_story_from_file (fs : StoryFS) (filename : String) :
    String × String :=
  match fs.files ("stories/" ++ filename) with
  | none => ("Story Not Found", "The requested story could not be found.")
  | some content => parseStoryContent content

/-- The title-recovery loop of `save_story_to_file`'s update branch:
the FIRST `# ` line wins (it breaks), default `Untitled Story`. -/
def firstHeadingTitle : List (List Char) → List Char
  | [] => "Untitled Story".data
  | line :: rest =>
    if "# ".data.isPrefixOf line then pyStrip (line.drop 2)
    else firstHeadingTitle rest

/-- Title chosen by the update branch of `save_story_to_file`. -/
def updateBranchTitle (fs1 : StoryFS) (existing_filename : String) : String :=
  match fs1.files ("stories/" ++ existing_filename) with
  | some existing_content =>
    ⟨firstHeadingTitle (splitOnL ['\n'] existing_content.data)⟩
  | none => "Updated Story"

/-- Title and filename chosen by the fresh branch of
`save_story_to_file`: multi-chapter stories (containing `## Chapter 2`
or `---`) extract the title from the part before the first `---` and
append a `_Chapters_1-N` suffix. -/
def freshBranchTitleFilename (gen : String → String)
    (story date_str : String) : String × String :=
  if containsS "## Chapter 2" story || containsS "---" story then
    ((extract_story_title gen ((splitOnS "---" story).headD "")) ++
        "_Chapters_1-" ++ toString (countS "## Chapter" story + 1) |>
      fun title => (title, date_str ++ "_" ++ title ++ ".md"))
  else
    (extract_story_title gen story |>
      fun title => (title, date_str ++ "_" ++ title ++ ".md"))

/-- The markdown header + body `save_story_to_file` writes. -/
def markdownContent (clean_title now_str provider_name story : String) :
    String :=
  "# " ++ clean_title ++ "\n\n*Generated on " ++ now_str ++
    "*\n*Using provider: " ++ provider_name ++ "*\n\n---\n\n" ++ story

/-- `save_story_to_file(story, provider_name, existing_filename)`.
Oracles: `gen` is `generate_story` for the chosen provider (used by
`extract_story_title`), `date_str`/`now_str` the two `strftime`
renderings of `datetime.now()`, `makedirsOk` whether `os.makedirs`
succeeds when the stories directory is absent (that call sits OUTSIDE
any `try`, so its failure propagates: `Except.error ()`), `writeOk`
whether the file write succeeds (that failure is caught and yields the
sentinel `""`). -/
def save_story_to_file (fs : StoryFS) (gen : String → String)
    (story provider_name existing_filename date_str now_str : String)
    (makedirsOk writeOk : Bool) : Except Unit (StoryFS × String) :=
  match (if fs.storiesDirOk then some fs
         else if makedirsOk then some { fs with storiesDirOk := true }
         else none) with
  | none => .error ()
  | some fs1 =>
    (if existing_filename ≠ "" ∧ pyStripS existing_filename ≠ "" then
        (updateBranchTitle fs1 existing_filename, existing_filename)
      else freshBranchTitleFilename gen story date_str) |> fun tf =>
    (markdownContent
        (replaceS "Chapters 1-" "Chapters 1-" (replaceS "_" " " tf.1))
        now_str provider_name story) |> fun content =>
    if writeOk then
      .ok ({ fs1 with files := fun p =>
        if p = "stories/" ++ tf.2 then some content else fs1.files p }, tf.2)
    else .ok (fs1, "")

theorem scanHeader_cons_heading (line : List Char)
    (rest : List (List Char)) (title : List Char)
    (h : "# ".data.isPrefixOf line) :
    scanHeader (line :: rest) title =
      scanHeader rest (pyStrip (line.drop 2)) := by
  show (if "# ".data.isPrefixOf line then
      scanHeader rest (pyStrip (line.drop 2))
    else if pyStrip line = "---".data then (title, some rest)
    else scanHeader rest title) = _
  rw [if_pos h]

theorem scanHeader_cons_delim (line : List Char)
    (rest : List (List Char)) (title : List Char)
    (h1 : ¬ "# ".data.isPrefixOf line = true)
    (h2 : pyStrip line = "---".data) :
    scanHeader (line :: rest) title = (title, some rest) := by
  show (if "# ".data.isPrefixOf line then
      scanHeader rest (pyStrip (line.drop 2))
    else if pyStrip line = "---".data then (title, some rest)
    else scanHeader rest title) = _
  rw [if_neg h1, if_pos h2]

theorem scanHeader_cons_other (line : List Char)
    (rest : List (List Char)) (title : List Char)
    (h1 : ¬ "# ".data.isPrefixOf line = true)
    (h2 : pyStrip line ≠ "---".data) :
    scanHeader (line :: rest) title = scanHeader rest title := by
  show (if "# ".data.isPrefixOf line then
      scanHeader rest (pyStrip (line.drop 2))
    else if pyStrip line = "---".data then (title, some rest)
    else scanHeader rest title) = _
  rw [if_neg h1, if_neg h2]

theorem splitOnL_cons_self (c : Char) (rest : List Char) :
    splitOnL [c] (c :: rest) = [] :: splitOnL [c] rest := by
  have h := splitOnL_single_append c [] rest (by simp)
  simpa using h

theorem pyStrip_starred_ne_delim (x : List Char) :
    pyStrip ('*' :: x) ≠ "---".data := by
  obtain ⟨tl, htl⟩ := pyStrip_cons_not_ws '*' x (by decide)
  rw [htl]
  intro heq
  have hhead := congrArg (fun l => l.headD ' ') heq
  simp at hhead

/-- Loading the exact markdown `save_story_to_file` writes recovers the
(stripped) title and the (stripped) story body — the header never
reaches the body. -/
theorem parse_markdownContent (t now p s : String)
    (ht : '\n' ∉ t.data) (hnow : '\n' ∉ now.data) (hp : '\n' ∉ p.data) :
    parseStoryContent (markdownContent t now p s) =
      (⟨pyStrip t.data⟩, pyStripS s) := by
  have hL0 : '\n' ∉ ['#', ' '] ++ t.data := by
    intro h
    rcases List.mem_append.mp h with h1 | h1
    · revert h1; decide
    · exact ht h1
  have hL2 : '\n' ∉ '*' :: ("Generated on ".data ++ (now.data ++ ['*'])) := by
    intro h
    rcases List.mem_cons.mp h with h1 | h1
    · revert h1; decide
    · rcases List.mem_append.mp h1 with h2 | h2
      · revert h2; decide
      · rcases List.mem_append.mp h2 with h3 | h3
        · exact hnow h3
        · revert h3; decide
  have hL3 : '\n' ∉ '*' :: ("Using provider: ".data ++ (p.data ++ ['*'])) := by
    intro h
    rcases List.mem_cons.mp h with h1 | h1
    · revert h1; decide
    · rcases List.mem_append.mp h1 with h2 | h2
      · revert h2; decide
      · rcases List.mem_append.mp h2 with h3 | h3
        · exact hp h3
        · revert h3; decide
  have hdata : (markdownContent t now p s).data =
      (['#', ' '] ++ t.data) ++ '\n' ::
        ('\n' :: (('*' :: ("Generated on ".data ++ (now.data ++ ['*']))) ++
          '\n' :: (('*' :: ("Using provider: ".data ++ (p.data ++ ['*']))) ++
            '\n' :: ('\n' :: ("---".data ++
              '\n' :: ('\n' :: s.data)))))) := by
    unfold markdownContent
    simp only [String.data_append]
    simp [List.append_assoc, List.cons_append]
  have hlines : splitOnL ['\n'] (markdownContent t now p s).data =
      (['#', ' '] ++ t.data) :: [] ::
        ('*' :: ("Generated on ".data ++ (now.data ++ ['*']))) ::
        ('*' :: ("Using provider: ".data ++ (p.data ++ ['*']))) :: [] ::
        "---".data :: [] :: splitOnL ['\n'] s.data := by
    rw [hdata]
    rw [splitOnL_single_append '\n' _ _ hL0]
    rw [splitOnL_cons_self]
    rw [splitOnL_single_append '\n' _ _ hL2]
    rw [splitOnL_single_append '\n' _ _ hL3]
    rw [splitOnL_cons_self]
    rw [splitOnL_single_append '\n' _ _ (by decide)]
    rw [splitOnL_cons_self]
  have hscan : scanHeader (splitOnL ['\n'] (markdownContent t now p s).data)
      "Untitled Story".data =
      (pyStrip t.data, some ([] :: splitOnL ['\n'] s.data)) := by
    rw [hlines]
    rw [scanHeader_cons_heading _ _ _
      (List.isPrefixOf_iff_prefix.mpr ⟨t.data, rfl⟩)]
    rw [show (['#', ' '] ++ t.data).drop 2 = t.data from rfl]
    rw [scanHeader_cons_other _ _ _ (by decide) (by decide)]
    rw [scanHeader_cons_other _ _ _ (by simp [List.isPrefixOf])
      (pyStrip_starred_ne_delim _)]
    rw [scanHeader_cons_other _ _ _ (by simp [List.isPrefixOf])
      (pyStrip_starred_ne_delim _)]
    rw [scanHeader_cons_other _ _ _ (by decide) (by decide)]
    rw [scanHeader_cons_delim _ _ _ (by decide) (by decide)]
  unfold parseStoryContent bodyLines
  rw [hscan]
  refine Prod.ext rfl ?_
  show (⟨pyStrip (joinSep ['\n'] ([] :: splitOnL ['\n'] s.data))⟩ : String) =
    pyStripS s
  obtain ⟨m, ms, hm⟩ := List.exists_cons_of_ne_nil
    (splitOnL_ne_nil ['\n'] s.data)
  rw [hm]
  rw [show joinSep ['\n'] ([] :: m :: ms) =
    [] ++ ['\n'] ++ joinSep ['\n'] (m :: ms) from rfl]
  rw [← hm, joinSep_splitOnL]
  rw [show ([] : List Char) ++ ['\n'] ++ s.data = '\n' :: s.data by simp]
  rw [pyStrip_cons_ws '\n' s.data (by decide)]
  rfl

theorem sanitizeTitle_no_newline (raw : String) (h : '\n' ∉ raw.data) :
    '\n' ∉ (sanitizeTitle raw).data := by
  unfold sanitizeTitle
  by_cases hc : sanitizeTitleCore raw = ""
  · rw [if_pos hc]; decide
  · rw [if_neg hc]
    intro hmem
    rcases mem_sanitizeTitleCore raw '\n' hmem with h1 | h1
    · exact h h1
    · exact absurd h1 (by decide)

theorem extract_story_title_no_newline (gen : String → String)
    (story : String) (hgen : ∀ prompt, '\n' ∉ (gen prompt).data) :
    '\n' ∉ (extract_story_title gen story).data :=
  sanitizeTitle_no_newline _ (hgen _)

theorem mem_replaceS (pat repl s : String) (c : Char)
    (h : c ∈ (replaceS pat repl s).data) : c ∈ s.data ∨ c ∈ repl.data := by
  unfold replaceS at h
  rcases mem_joinSep _ _ _ h with ⟨part, hpart, hcp⟩ | hsep
  · exact Or.inl (mem_of_mem_splitOnL _ _ _ hpart _ hcp)
  · exact Or.inr hsep

theorem replaceS_self (pat s : String) : replaceS pat pat s = s := by
  unfold replaceS
  rw [joinSep_splitOnL]

theorem freshBranchTitle_no_newline (gen : String → String)
    (story date_str : String) (hgen : ∀ prompt, '\n' ∉ (gen prompt).data) :
    '\n' ∉ (freshBranchTitleFilename gen story date_str).1.data := by
  unfold freshBranchTitleFilename
  by_cases hmulti : (containsS "## Chapter 2" story || containsS "---" story) = true
  · rw [if_pos hmulti]
    intro hmem
    simp only [String.data_append] at hmem
    rcases List.mem_append.mp hmem with h1 | h1
    · rcases List.mem_append.mp h1 with h2 | h2
      · exact extract_story_title_no_newline gen _ hgen h2
      · revert h2; decide
    · exact toString_nat_ne_newline _ h1
  · rw [if_neg hmulti]
    exact extract_story_title_no_newline gen _ hgen

theorem cleanTitle_no_newline (title : String) (h : '\n' ∉ title.data) :
    '\n' ∉ (replaceS "Chapters 1-" "Chapters 1-"
      (replaceS "_" " " title)).data := by
  rw [replaceS_self]
  intro hmem
  rcases mem_replaceS _ _ _ _ hmem with h1 | h1
  · exact h h1
  · revert h1; decide

/-- The filename the fresh branch of `save_story_to_file` chooses. -/
def freshSaveFilename (gen : String → String) (story date_str : String) :
    String :=
  (freshBranchTitleFilename gen story date_str).2

/-- The file content the fresh branch of `save_story_to_file` writes. -/
def freshSaveContent (gen : String → String)
    (story provider_name date_str now_str : String) : String :=
  markdownContent
    (replaceS "Chapters 1-" "Chapters 1-"
      (replaceS "_" " " (freshBranchTitleFilename gen story date_str).1))
    now_str provider_name story

/-- A successful fresh save (no existing filename, directory creation and
write both succeed) stores `freshSaveContent` under `freshSaveFilename`
and leaves the stories directory present. -/
theorem save_fresh_eq (files : String → Option String) (dirOk : Bool)
    (gen : String → String) (story provider_name date_str now_str : String) :
    save_story_to_file ⟨files, dirOk⟩ gen story provider_name "" date_str
      now_str true true =
      .ok (⟨fun p =>
        if p = "stories/" ++ freshSaveFilename gen story date_str then
          some (freshSaveContent gen story provider_name date_str now_str)
        else files p, true⟩, freshSaveFilename gen story date_str) := by
  cases dirOk <;> rfl

/-- C2: saving a story to a fresh file and loading that same filename
returns a body equal to the saved text, modulo the header that save
prepends and load strips and modulo surrounding whitespace:
`load(save(text)).body = text.strip()`.  The oracle hypotheses say the
provider's title response, the provider name and the timestamp rendering
contain no newline (all true of the real callers: registry keys, strftime
output, single-line titles). -/
theorem claim_C2_save_load_roundtrip (fs : StoryFS) (gen : String → String)
    (story provider_name date_str now_str : String)
    (hgen : ∀ prompt, '\n' ∉ (gen prompt).data)
    (hprov : '\n' ∉ provider_name.data)
    (hnow : '\n' ∉ now_str.data) :
    ∃ (fs2 : StoryFS) (filename : String),
      save_story_to_file fs gen story provider_name "" date_str now_str
        true true = .ok (fs2, filename) ∧
      (load_story_from_file fs2 filename).2 = pyStripS story := by
  have hct : '\n' ∉ (replaceS "Chapters 1-" "Chapters 1-"
      (replaceS "_" " " (freshBranchTitleFilename gen story date_str).1)).data :=
    cleanTitle_no_newline _ (freshBranchTitle_no_newline gen story date_str hgen)
  obtain ⟨files, dirOk⟩ := fs
  refine ⟨_, _,
    save_fresh_eq files dirOk gen story provider_name date_str now_str, ?_⟩
  unfold load_story_from_file
  rw [show (StoryFS.mk (fun p =>
      if p = "stories/" ++ freshSaveFilename gen story date_str then
        some (freshSaveContent gen story provider_name date_str now_str)
      else files p) true).files
      ("stories/" ++ freshSaveFilename gen story date_str) =
      some (freshSaveContent gen story provider_name date_str now_str)
      from by simp]
  show (parseStoryContent
    (freshSaveContent gen story provider_name date_str now_str)).2 =
    pyStripS story
  unfold freshSaveContent
  rw [parse_markdownContent _ _ _ _ hct hnow hprov]

/-- Witness for C2: a concrete fresh save followed by a load of the
returned filename. -/
theorem claim_C2_save_load_roundtrip_witness :
    ∃ (fs2 : StoryFS) (filename : String),
      save_story_to_file ⟨fun _ => none, false⟩ (fun _ => "A Dragon Tale")
        "Once upon a time there was a dragon.\n" "ollama" "" "2025-01-01"
        "2025-01-01 at 10:00:00" true true = .ok (fs2, filename) ∧
      (load_story_from_file fs2 filename).2 =
        pyStripS "Once upon a time there was a dragon.\n" :=
  claim_C2_save_load_roundtrip ⟨fun _ => none, false⟩
    (fun _ => "A Dragon Tale") "Once upon a time there was a dragon.\n"
    "ollama" "2025-01-01" "2025-01-01 at 10:00:00"
    (fun _ => (by decide : '\n' ∉ ("A Dragon Tale" : String).data))
    (by decide) (by decide)

theorem scanHeader_no_delim (lines : List (List Char)) :
    ∀ t, (∀ l ∈ lines, pyStrip l ≠ "---".data) →
      (scanHeader lines t).2 = none ∧
      ((∀ l ∈ lines, ¬ "# ".data.isPrefixOf l = true) →
        (scanHeader lines t).1 = t) := by
  induction lines with
  | nil => intro t _; exact ⟨rfl, fun _ => rfl⟩
  | cons line rest ih =>
    intro t hnd
    by_cases hh : "# ".data.isPrefixOf line = true
    · rw [scanHeader_cons_heading _ _ _ hh]
      refine ⟨(ih _ (fun l hl => hnd l (List.mem_cons_of_mem _ hl))).1, ?_⟩
      intro hna
      exact absurd hh (hna line (by simp))
    · rw [scanHeader_cons_other _ _ _ hh (hnd line (by simp))]
      obtain ⟨h1, h2⟩ := ih t (fun l hl => hnd l (List.mem_cons_of_mem _ hl))
      exact ⟨h1, fun hna => h2 (fun l hl => hna l (List.mem_cons_of_mem _ hl))⟩

/-- C6 (amended): a missing file loads as the not-found sentinel pair; a
stored document (the exact markdown `save` writes) loads with the header
stripped, so the header is never part of the body; a file with no
delimiter line returns the whole (whitespace-stripped) content as the
body, and its title is the default only when the file also has no `# `
heading line (a heading line becomes the title even without a
delimiter). -/
theorem claim_C6_load_header_stripping :
    (∀ (fs : StoryFS) (filename : String),
      fs.files ("stories/" ++ filename) = none →
      load_story_from_file fs filename =
        ("Story Not Found", "The requested story could not be found.")) ∧
    (∀ t now p s : String, '\n' ∉ t.data → '\n' ∉ now.data → '\n' ∉ p.data →
      (parseStoryContent (markdownContent t now p s)).2 = pyStripS s) ∧
    (∀ content : String,
      (∀ line ∈ splitOnL ['\n'] content.data, pyStrip line ≠ "---".data) →
      (parseStoryContent content).2 = pyStripS content ∧
      ((∀ line ∈ splitOnL ['\n'] content.data,
          ¬ "# ".data.isPrefixOf line = true) →
        (parseStoryContent content).1 = "Untitled Story")) := by
  refine ⟨?_, ?_, ?_⟩
  · intro fs filename h
    unfold load_story_from_file
    rw [h]
  · intro t now p s ht hnow hp
    rw [parse_markdownContent t now p s ht hnow hp]
  · intro content hnd
    obtain ⟨h1, h2⟩ := scanHeader_no_delim (splitOnL ['\n'] content.data)
      "Untitled Story".data hnd
    constructor
    · show (⟨pyStrip (joinSep ['\n']
        (bodyLines (splitOnL ['\n'] content.data)))⟩ : String) =
        pyStripS content
      unfold bodyLines
      rw [h1]
      rw [joinSep_splitOnL]
      rfl
    · intro hna
      show (⟨(scanHeader (splitOnL ['\n'] content.data)
        "Untitled Story".data).1⟩ : String) = "Untitled Story"
      rw [h2 hna]

/-- A stories directory containing a delimiter-free file that does have a
`# ` heading line. -/
def noDelimFS : StoryFS :=
  ⟨fun p => if p = "stories/nodelim.md" then some "# Foo\nbody" else none,
   true⟩

/-- C6 counterexample: a file with no delimiter line but with a `# `
heading loads with the heading as its title, not the default title the
claim asserts. -/
theorem claim_C6_counterexample :
    (∀ line ∈ splitOnL ['\n'] ("# Foo\nbody" : String).data,
      pyStrip line ≠ "---".data) ∧
    (load_story_from_file noDelimFS "nodelim.md").1 ≠ "Untitled Story" := by
  constructor
  · decide
  · decide

/-- Witness for the amended C6 at concrete inputs. -/
theorem claim_C6_load_header_stripping_witness :
    load_story_from_file ⟨fun _ => none, true⟩ "missing.md" =
      ("Story Not Found", "The requested story could not be found.") ∧
    (parseStoryContent "plain story text").2 = pyStripS "plain story text" :=
  ⟨claim_C6_load_header_stripping.1 ⟨fun _ => none, true⟩ "missing.md" rfl,
   (claim_C6_load_header_stripping.2.2 "plain story text" (by decide)).1⟩

/-- C8 counterexample: with the stories directory absent and
`os.makedirs` failing, `save_story_to_file` raises (the `makedirs` call
is outside any `try`) instead of returning the empty sentinel the claim
asserts for "any I/O failure". -/
theorem claim_C8_counterexample :
    save_story_to_file ⟨fun _ => none, false⟩ (fun _ => "T") "story text"
      "ollama" "" "2025-01-01" "ts" false true = .error () := rfl

/-- C8 (amended): when the stories directory exists or its creation
succeeds, `save_story_to_file` never raises — it creates the directory
if absent, and an I/O failure during the file write yields the empty
sentinel filename with the file map unchanged; only a failure of
`os.makedirs` itself propagates as an exception. -/
theorem claim_C8_save_sentinel (fs : StoryFS) (gen : String → String)
    (story provider_name existing_filename date_str now_str : String)
    (makedirsOk writeOk : Bool) :
    ((fs.storiesDirOk = true ∨ makedirsOk = true) →
      ∃ (fs2 : StoryFS) (name : String),
        save_story_to_file fs gen story provider_name existing_filename
          date_str now_str makedirsOk writeOk = .ok (fs2, name) ∧
        fs2.storiesDirOk = true ∧
        (writeOk = false → name = "" ∧ fs2.files = fs.files)) ∧
    (fs.storiesDirOk = false → makedirsOk = false →
      save_story_to_file fs gen story provider_name existing_filename
        date_str now_str makedirsOk writeOk = .error ()) := by
  obtain ⟨files, dirOk⟩ := fs
  constructor
  · intro hdir
    cases dirOk with
    | true =>
      cases writeOk with
      | true => exact ⟨_, _, rfl, rfl, fun hw => by cases hw⟩
      | false => exact ⟨_, _, rfl, rfl, fun _ => ⟨rfl, rfl⟩⟩
    | false =>
      have hmk : makedirsOk = true := by
        rcases hdir with h | h
        · exact absurd h Bool.false_ne_true
        · exact h
      subst hmk
      cases writeOk with
      | true => exact ⟨_, _, rfl, rfl, fun hw => by cases hw⟩
      | false => exact ⟨_, _, rfl, rfl, fun _ => ⟨rfl, rfl⟩⟩
  · intro h1 h2
    subst h2
    have : dirOk = false := h1
    subst this
    rfl

/-- Witness for the amended C8 at concrete inputs: directory creation
succeeds, the file write fails, and the result is the empty sentinel
with no exception. -/
theorem claim_C8_save_sentinel_witness :
    (∃ (fs2 : StoryFS) (name : String),
      save_story_to_file ⟨fun _ => none, false⟩ (fun _ => "T") "story"
        "ollama" "" "2025-01-01" "ts" true false = .ok (fs2, name) ∧
      fs2.storiesDirOk = true ∧
      (false = false → name = "" ∧ fs2.files = fun _ => none)) ∧
    save_story_to_file ⟨fun _ => none, false⟩ (fun _ => "T") "story"
      "ollama" "" "2025-01-01" "ts" false true = .error () :=
  ⟨(claim_C8_save_sentinel ⟨fun _ => none, false⟩ (fun _ => "T") "story"
      "ollama" "" "2025-01-01" "ts" true false).1 (Or.inr rfl),
   (claim_C8_save_sentinel ⟨fun _ => none, false⟩ (fun _ => "T") "story"
      "ollama" "" "2025-01-01" "ts" false true).2 rfl rfl⟩

end Storytime
